import Mathlib

/-!
Verification of the record-aggregation and time-bucketing core of the
health-tracker app (`src/app.py`).

The embedding below translates, from the source:
  * `format_time_simple`   (src/app.py:45-53)
  * `get_today_pee_count`  (src/app.py:131-134)
  * `get_weekly_pee_data`  (src/app.py:136-150)
  * the weekly total / average metrics of tab 1 (src/app.py:278-283)

Library calls of the Python code are modelled explicitly:
  * `datetime.date` arithmetic (`today - timedelta(days=i)`) is modelled by
    a calendar `Date` structure (proleptic Gregorian, `Int` years) with a
    one-day predecessor `predDate`; the model extends the calendar below
    Python's `date.min` instead of raising `OverflowError` there.
  * `strftime("%Y-%m-%d")` is modelled by `fmtDateStr` (year zero-padded to
    4 digits, month/day to 2; a sign for negative years, unreachable for
    Python dates, keeps the function total).
  * `datetime.strptime(s, "%H:%M:%S")` followed by the `datetime`
    constructor is modelled by `parseHMS`: exactly three colon-separated
    groups of one or two (ASCII) digits with hour ≤ 23, minute ≤ 59 and
    second ≤ 59 (the `datetime` constructor rejects the leap seconds 60/61
    that `_strptime`'s regex itself would admit).
  * a Python `dict` with string keys is modelled by an insertion-ordered
    association list (`dictSet` updates in place or appends, `dictInc`
    increments the entry of an existing key), matching the iteration order
    guarantees of `dict`.
  * a sheet row (`worksheet.get_all_records()` dict) is modelled by
    `Record`; `r.get("date")` is `Record.date : Option String` (`none` for
    a missing field), `r.get("date", "")` is `dateOf`.
-/

/-! ## Definitions -/

/-- The decimal digit character of `n < 10` (total, clamping at `'9'`). -/
def digitChar10 : Nat → Char
  | 0 => '0'
  | 1 => '1'
  | 2 => '2'
  | 3 => '3'
  | 4 => '4'
  | 5 => '5'
  | 6 => '6'
  | 7 => '7'
  | 8 => '8'
  | _ => '9'

/-- Numeric value of a decimal digit character. -/
def digitVal (c : Char) : Nat := c.toNat - 48

/-- The number denoted by a list of decimal digit characters (big-endian). -/
def charsVal (cs : List Char) : Nat := cs.foldl (fun a c => 10 * a + digitVal c) 0

/-- Big-endian decimal digit characters of `n`, with explicit fuel
(`natChars` instantiates the fuel so that it never runs out). -/
def natCharsAux : Nat → Nat → List Char
  | 0, _ => []
  | f + 1, n => if n = 0 then [] else natCharsAux f (n / 10) ++ [digitChar10 (n % 10)]

/-- The decimal representation of `n`, as Python's `str`/`"%d"` prints it. -/
def natChars (n : Nat) : List Char := if n = 0 then ['0'] else natCharsAux n n

/-- Zero-padded two-digit decimal representation (Python's `"%02d"`,
faithful for `n < 100`, the range of months, days, hours and minutes). -/
def pad2c (n : Nat) : List Char := [digitChar10 (n / 10 % 10), digitChar10 (n % 10)]

/-- Decimal representation left-padded with zeros to width 4 (`"%04d"`,
the year field of `strftime("%Y-%m-%d")` in CPython). -/
def pad4c (n : Nat) : List Char := List.replicate (4 - (natChars n).length) '0' ++ natChars n

/-- Split a character list at every occurrence of `sep` (the groups
delimited by the separators, in order; empty groups are kept). -/
def splitSep (sep : Char) : List Char → List (List Char)
  | [] => [[]]
  | c :: cs =>
    if c = sep then [] :: splitSep sep cs
    else
      match splitSep sep cs with
      | [] => [[c]]
      | g :: gs => (c :: g) :: gs

/-- A calendar date of the proleptic Gregorian calendar.  Python's
`datetime.date` restricts the year to `1..9999`; the model is total over
`Int` years (the extra range is unreachable for clock-derived dates). -/
structure Date where
  year : Int
  month : Nat
  day : Nat
deriving DecidableEq

/-- Gregorian leap-year rule (as `calendar.isleap` / `datetime` use it). -/
def isLeap (y : Int) : Bool := y % 4 == 0 && (y % 100 != 0 || y % 400 == 0)

/-- Number of days of month `m` of year `y`. -/
def daysInMonth (y : Int) (m : Nat) : Nat :=
  if m = 2 then (if isLeap y then 29 else 28)
  else if m = 4 ∨ m = 6 ∨ m = 9 ∨ m = 11 then 30
  else 31

/-- `dt` denotes an actual calendar day. -/
def ValidDate (dt : Date) : Prop :=
  1 ≤ dt.month ∧ dt.month ≤ 12 ∧ 1 ≤ dt.day ∧ dt.day ≤ daysInMonth dt.year dt.month

instance (dt : Date) : Decidable (ValidDate dt) := by
  unfold ValidDate; infer_instance

/-- The previous calendar day: the semantics of
`d - timedelta(days=1)` for a `datetime.date` `d`. -/
def predDate (dt : Date) : Date :=
  if 2 ≤ dt.day then ⟨dt.year, dt.month, dt.day - 1⟩
  else if 2 ≤ dt.month then ⟨dt.year, dt.month - 1, daysInMonth dt.year (dt.month - 1)⟩
  else ⟨dt.year - 1, 12, 31⟩

/-- `subDays dt k` is `dt - timedelta(days=k)`. -/
def subDays (dt : Date) : Nat → Date
  | 0 => dt
  | k + 1 => predDate (subDays dt k)

/-- Strict chronological order of calendar dates. -/
def dateLt (a b : Date) : Prop :=
  a.year < b.year ∨
    (a.year = b.year ∧ (a.month < b.month ∨ (a.month = b.month ∧ a.day < b.day)))

instance (a b : Date) : Decidable (dateLt a b) := by
  unfold dateLt; infer_instance

/-- The year field of `strftime("%Y-%m-%d")`: zero-padded to 4 digits
(a leading sign for negative years keeps the model total; Python years
are always `≥ 1`). -/
def fmtYear (y : Int) : List Char :=
  if y < 0 then '-' :: pad4c (-y).toNat else pad4c y.toNat

/-- The character list of `dt.strftime("%Y-%m-%d")`. -/
def fmtDateChars (dt : Date) : List Char :=
  fmtYear dt.year ++ '-' :: (pad2c dt.month ++ '-' :: pad2c dt.day)

/-- `dt.strftime("%Y-%m-%d")` as a string. -/
def fmtDateStr (dt : Date) : String := String.mk (fmtDateChars dt)

/-- One row of the トイレ記録 sheet as `get_all_records()` returns it.
`none` models a missing field (Python `r.get(...)` returning its default). -/
structure Record where
  date : Option String
  time : Option String
deriving DecidableEq

/-- `record.get("date", "")` (src/app.py:146). -/
def dateOf (r : Record) : String := r.date.getD ""

/-- `d[k] = v` on an insertion-ordered dict: update an existing key in
place, else append at the end. -/
def dictSet : List (String × Nat) → String → Nat → List (String × Nat)
  | [], k, v => [(k, v)]
  | (k1, v1) :: rest, k, v =>
    if k1 = k then (k1, v) :: rest else (k1, v1) :: dictSet rest k v

/-- `k in d` on a dict. -/
def dictMem (k : String) : List (String × Nat) → Bool
  | [] => false
  | (k1, _) :: rest => k1 == k || dictMem k rest

/-- `d[k] += 1` on a dict whose key `k` is present. -/
def dictInc : List (String × Nat) → String → List (String × Nat)
  | [], _ => []
  | (k1, v1) :: rest, k =>
    if k1 = k then (k1, v1 + 1) :: rest else (k1, v1) :: dictInc rest k

/-- The seven window keys `(today - timedelta(days=i)).strftime("%Y-%m-%d")`
for `i in range(6, -1, -1)`, in insertion order (oldest first). -/
def weekKeys (today : Date) : List String :=
  (List.range 7).map (fun j => fmtDateStr (subDays today (6 - j)))

/-- `get_weekly_pee_data` (src/app.py:136-150), with the current JST date —
read there via `get_japan_time().date()` — made an explicit argument. -/
def get_weekly_pee_data (today : Date) (pee_data : List Record) : List (String × Nat) :=
  pee_data.foldl
    (fun d r => if dictMem (dateOf r) d then dictInc d (dateOf r) else d)
    ((weekKeys today).foldl (fun d k => dictSet d k 0) [])

/-- `get_today_pee_count` (src/app.py:131-134), with the current JST date
made an explicit argument; `r.get("date")` with no default is `r.date`,
and `None == today` is false in Python, hence the `Option` comparison. -/
def get_today_pee_count (today : Date) (pee_data : List Record) : Nat :=
  (pee_data.filter (fun r => r.date == some (fmtDateStr today))).length

/-- Count of the records whose `date` field string-matches `k`. -/
def countMatch (k : String) (pee : List Record) : Nat :=
  (pee.filter (fun r => dateOf r == k)).length

/-- `sum(weekly_data.values())` (src/app.py:280,282). -/
def weeklyTotal (today : Date) (pee : List Record) : Nat :=
  ((get_weekly_pee_data today pee).map Prod.snd).sum

/-- `avg = sum(weekly_data.values()) / 7` (src/app.py:282), Python float
division modelled as exact division in `ℚ`. -/
def weeklyAvg (today : Date) (pee : List Record) : ℚ :=
  (weeklyTotal today pee : ℚ) / 7

/-- Number of window days whose bucket count is non-zero (what a
"days observed" denominator would use; the code never computes this). -/
def nonzeroDays (today : Date) (pee : List Record) : Nat :=
  ((get_weekly_pee_data today pee).filter (fun p => p.2 != 0)).length

/-- One `%H`/`%M`/`%S` group: one or two (ASCII) digit characters whose
value is at most `hi`, exactly what `_strptime`'s regex fragments
(`2[0-3]|[0-1]\d|\d` etc.) accept in front of a delimiter. -/
def parseComp (g : List Char) (hi : Nat) : Option Nat :=
  if (g.length == 1 || g.length == 2) && g.all Char.isDigit then
    if charsVal g ≤ hi then some (charsVal g) else none
  else none

/-- `datetime.strptime(s, "%H:%M:%S")`: three colon-separated groups; the
bound 59 on seconds reflects the `datetime` constructor, which rejects the
leap seconds 60/61 that the regex alone would admit (the surrounding
`try/except` turns either failure into the same fallback). -/
def parseHMSChars (cs : List Char) : Option (Nat × Nat × Nat) :=
  match splitSep ':' cs with
  | [hg, mg, sg] =>
    match parseComp hg 23, parseComp mg 59, parseComp sg 59 with
    | some h, some m, some s => some (h, m, s)
    | _, _, _ => none
  | _ => none

/-- String version of `parseHMS`. -/
def parseHMS (s : String) : Option (Nat × Nat × Nat) := parseHMSChars s.data

/-- `str(n)` / `f"{n}"`. -/
def natStr (n : Nat) : String := String.mk (natChars n)

/-- `f"{n:02d}"` (faithful for `n < 100`). -/
def pad2str (n : Nat) : String := String.mk (pad2c n)

/-- `format_time_simple` (src/app.py:45-53): format a parsed time as
`f"{hour}時{minute:02d}分"`, returning the input unchanged when
`strptime`/`datetime` raise. -/
def format_time_simple (time_str : String) : String :=
  match parseHMS time_str with
  | some (h, m, _) => natStr h ++ "時" ++ pad2str m ++ "分"
  | none => time_str

/-- Pointwise form of `d[k] += 1` on a dict with distinct keys. -/
def bumpF (k : String) (p : String × Nat) : String × Nat :=
  if p.1 = k then (p.1, p.2 + 1) else p

/-- The predicate "this record's date string-matches one of the keys `K`". -/
def inWindow (K : List String) (r : Record) : Bool :=
  match r.date with
  | some d => decide (d ∈ K)
  | none => false

/-- The fixed clock date of the worked example. -/
def exampleToday : Date := ⟨2024, 6, 10⟩

/-- The example input records, dates
`["2024-06-10", "2024-06-10", "2024-06-08", "2024-06-01"]`. -/
def exampleRecords : List Record :=
  [⟨some "2024-06-10", none⟩, ⟨some "2024-06-10", none⟩,
   ⟨some "2024-06-08", none⟩, ⟨some "2024-06-01", none⟩]

/-! ## Theorems -/

theorem digitVal_digitChar10 : ∀ k, k < 10 → digitVal (digitChar10 k) = k := by decide

theorem digitChar10_isDigit : ∀ k, k < 10 → (digitChar10 k).isDigit = true := by decide

theorem charsVal_append_singleton (cs : List Char) (c : Char) :
    charsVal (cs ++ [c]) = 10 * charsVal cs + digitVal c := by
  unfold charsVal
  rw [List.foldl_append]
  rfl

theorem charsVal_replicate_zero (k : Nat) (cs : List Char) :
    charsVal (List.replicate k '0' ++ cs) = charsVal cs := by
  unfold charsVal
  rw [List.foldl_append]
  have h : (List.replicate k '0').foldl (fun a c => 10 * a + digitVal c) 0 = 0 := by
    induction k with
    | zero => rfl
    | succ k ih => simpa [List.replicate_succ, digitVal] using ih
  rw [h]

theorem charsVal_natCharsAux : ∀ f n, n ≤ f → charsVal (natCharsAux f n) = n := by
  intro f
  induction f with
  | zero =>
    intro n hn
    interval_cases n
    rfl
  | succ f ih =>
    intro n hn
    by_cases h0 : n = 0
    · subst h0; rfl
    · have hdiv : n / 10 ≤ f := by
        have : n / 10 < n := Nat.div_lt_self (Nat.pos_of_ne_zero h0) (by omega)
        omega
      rw [natCharsAux, if_neg h0, charsVal_append_singleton, ih (n / 10) hdiv,
        digitVal_digitChar10 (n % 10) (Nat.mod_lt n (by omega))]
      omega

theorem charsVal_natChars (n : Nat) : charsVal (natChars n) = n := by
  unfold natChars
  by_cases h0 : n = 0
  · subst h0; rfl
  · rw [if_neg h0]; exact charsVal_natCharsAux n n (Nat.le_refl n)

theorem mem_natCharsAux_isDigit : ∀ f n c, c ∈ natCharsAux f n → c.isDigit = true := by
  intro f
  induction f with
  | zero => intro n c hc; simp [natCharsAux] at hc
  | succ f ih =>
    intro n c hc
    rw [natCharsAux] at hc
    by_cases h0 : n = 0
    · rw [if_pos h0] at hc; simp at hc
    · rw [if_neg h0, List.mem_append] at hc
      rcases hc with hc | hc
      · exact ih (n / 10) c hc
      · have : c = digitChar10 (n % 10) := by simpa using hc
        subst this
        exact digitChar10_isDigit (n % 10) (Nat.mod_lt n (by omega))

theorem mem_natChars_isDigit (n : Nat) (c : Char) (hc : c ∈ natChars n) :
    c.isDigit = true := by
  unfold natChars at hc
  by_cases h0 : n = 0
  · rw [if_pos h0] at hc
    have : c = '0' := by simpa using hc
    subst this; rfl
  · rw [if_neg h0] at hc
    exact mem_natCharsAux_isDigit n n c hc

theorem natChars_ne_nil (n : Nat) : natChars n ≠ [] := by
  unfold natChars
  by_cases h0 : n = 0
  · rw [if_pos h0]; simp
  · rw [if_neg h0]
    obtain ⟨k, rfl⟩ : ∃ k, n = k + 1 := ⟨n - 1, by omega⟩
    rw [natCharsAux, if_neg h0]
    simp

theorem charsVal_pad2c (n : Nat) (h : n < 100) : charsVal (pad2c n) = n := by
  unfold pad2c
  have h1 : digitVal (digitChar10 (n / 10 % 10)) = n / 10 % 10 :=
    digitVal_digitChar10 _ (Nat.mod_lt _ (by omega))
  have h2 : digitVal (digitChar10 (n % 10)) = n % 10 :=
    digitVal_digitChar10 _ (Nat.mod_lt n (by omega))
  show charsVal ([digitChar10 (n / 10 % 10)] ++ [digitChar10 (n % 10)]) = n
  rw [charsVal_append_singleton, h2]
  have hz : charsVal ([] : List Char) = 0 := rfl
  have : charsVal [digitChar10 (n / 10 % 10)] = n / 10 % 10 := by
    show charsVal ([] ++ [digitChar10 (n / 10 % 10)]) = n / 10 % 10
    rw [charsVal_append_singleton, h1, hz]
    omega
  rw [this]
  omega

theorem pad2c_length (n : Nat) : (pad2c n).length = 2 := rfl

theorem mem_pad2c_isDigit (n : Nat) (c : Char) (hc : c ∈ pad2c n) : c.isDigit = true := by
  unfold pad2c at hc
  have : c = digitChar10 (n / 10 % 10) ∨ c = digitChar10 (n % 10) := by simpa using hc
  rcases this with rfl | rfl
  · exact digitChar10_isDigit _ (Nat.mod_lt _ (by omega))
  · exact digitChar10_isDigit _ (Nat.mod_lt n (by omega))

theorem charsVal_pad4c (n : Nat) : charsVal (pad4c n) = n := by
  unfold pad4c
  rw [charsVal_replicate_zero, charsVal_natChars]

theorem pad4c_inj (a b : Nat) (h : pad4c a = pad4c b) : a = b := by
  have := congrArg charsVal h
  rwa [charsVal_pad4c, charsVal_pad4c] at this

theorem mem_pad4c_isDigit (n : Nat) (c : Char) (hc : c ∈ pad4c n) : c.isDigit = true := by
  unfold pad4c at hc
  rw [List.mem_append] at hc
  rcases hc with hc | hc
  · have : c = '0' := List.eq_of_mem_replicate hc
    subst this; rfl
  · exact mem_natChars_isDigit n c hc

theorem splitSep_ne_nil (sep : Char) : ∀ cs, splitSep sep cs ≠ [] := by
  intro cs
  induction cs with
  | nil => simp [splitSep]
  | cons c cs ih =>
    rw [splitSep]
    by_cases h : c = sep
    · rw [if_pos h]; simp
    · rw [if_neg h]
      cases hs : splitSep sep cs with
      | nil => simp
      | cons g gs => simp

theorem splitSep_of_no_sep (sep : Char) (cs : List Char)
    (h : ∀ c ∈ cs, c ≠ sep) : splitSep sep cs = [cs] := by
  induction cs with
  | nil => rfl
  | cons c cs ih =>
    have hc : c ≠ sep := h c (List.mem_cons_self c cs)
    have ih2 : splitSep sep cs = [cs] := ih (fun x hx => h x (List.mem_cons_of_mem c hx))
    rw [splitSep, if_neg hc, ih2]

theorem splitSep_append_sep (sep : Char) (a b : List Char)
    (ha : ∀ c ∈ a, c ≠ sep) :
    splitSep sep (a ++ sep :: b) = a :: splitSep sep b := by
  induction a with
  | nil => simp [splitSep]
  | cons c a ih =>
    have hc : c ≠ sep := ha c (List.mem_cons_self c a)
    have ih2 := ih (fun x hx => ha x (List.mem_cons_of_mem c hx))
    rw [List.cons_append, splitSep, if_neg hc, ih2]

theorem one_le_daysInMonth (y : Int) (m : Nat) : 1 ≤ daysInMonth y m := by
  unfold daysInMonth
  split
  · split <;> omega
  · split <;> omega

theorem daysInMonth_le_31 (y : Int) (m : Nat) : daysInMonth y m ≤ 31 := by
  unfold daysInMonth
  split
  · split <;> omega
  · split <;> omega

theorem daysInMonth_twelve (y : Int) : daysInMonth y 12 = 31 := rfl

theorem predDate_valid (dt : Date) (h : ValidDate dt) : ValidDate (predDate dt) := by
  obtain ⟨h1, h2, h3, h4⟩ := h
  unfold predDate ValidDate
  by_cases hd : 2 ≤ dt.day
  · rw [if_pos hd]
    dsimp only
    exact ⟨h1, h2, by omega, by omega⟩
  · rw [if_neg hd]
    by_cases hm : 2 ≤ dt.month
    · rw [if_pos hm]
      dsimp only
      exact ⟨by omega, by omega, one_le_daysInMonth _ _, Nat.le_refl _⟩
    · rw [if_neg hm]
      dsimp only
      rw [daysInMonth_twelve]
      exact ⟨by omega, by omega, by omega, by omega⟩

theorem predDate_lt (dt : Date) (h : ValidDate dt) : dateLt (predDate dt) dt := by
  obtain ⟨h1, h2, h3, h4⟩ := h
  unfold predDate dateLt
  by_cases hd : 2 ≤ dt.day
  · rw [if_pos hd]
    dsimp only
    exact Or.inr ⟨rfl, Or.inr ⟨rfl, by omega⟩⟩
  · rw [if_neg hd]
    by_cases hm : 2 ≤ dt.month
    · rw [if_pos hm]
      dsimp only
      exact Or.inr ⟨rfl, Or.inl (by omega)⟩
    · rw [if_neg hm]
      dsimp only
      exact Or.inl (by omega)

theorem subDays_valid (dt : Date) (h : ValidDate dt) : ∀ k, ValidDate (subDays dt k) := by
  intro k
  induction k with
  | zero => exact h
  | succ k ih => exact predDate_valid _ ih

theorem dateLt_trans (a b c : Date) (hab : dateLt a b) (hbc : dateLt b c) : dateLt a c := by
  unfold dateLt at *
  omega

theorem dateLt_irrefl (a : Date) (h : dateLt a a) : False := by
  unfold dateLt at h
  omega

theorem subDays_lt (dt : Date) (h : ValidDate dt) (a k : Nat) :
    dateLt (subDays dt (a + k + 1)) (subDays dt a) := by
  induction k with
  | zero => exact predDate_lt _ (subDays_valid dt h a)
  | succ k ih =>
    have h1 : dateLt (subDays dt (a + k + 1 + 1)) (subDays dt (a + k + 1)) :=
      predDate_lt _ (subDays_valid dt h (a + k + 1))
    exact dateLt_trans _ _ _ h1 ih

theorem subDays_inj (dt : Date) (h : ValidDate dt) (i j : Nat)
    (hij : subDays dt i = subDays dt j) : i = j := by
  rcases Nat.lt_trichotomy i j with hlt | heq | hgt
  · exfalso
    have := subDays_lt dt h i (j - i - 1)
    rw [show i + (j - i - 1) + 1 = j by omega, hij] at this
    exact dateLt_irrefl _ this
  · exact heq
  · exfalso
    have := subDays_lt dt h j (i - j - 1)
    rw [show j + (i - j - 1) + 1 = i by omega, hij] at this
    exact dateLt_irrefl _ this

theorem fmtYear_inj (y1 y2 : Int) (h : fmtYear y1 = fmtYear y2) : y1 = y2 := by
  unfold fmtYear at h
  by_cases h1 : y1 < 0 <;> by_cases h2 : y2 < 0
  · rw [if_pos h1, if_pos h2] at h
    have := pad4c_inj _ _ (List.cons_injective h)
    omega
  · rw [if_pos h1, if_neg h2] at h
    exfalso
    have hm : '-' ∈ pad4c y2.toNat := by rw [← h]; exact List.mem_cons_self _ _
    have := mem_pad4c_isDigit _ _ hm
    simp [Char.isDigit] at this
  · rw [if_neg h1, if_pos h2] at h
    exfalso
    have hm : '-' ∈ pad4c y1.toNat := by rw [h]; exact List.mem_cons_self _ _
    have := mem_pad4c_isDigit _ _ hm
    simp [Char.isDigit] at this
  · rw [if_neg h1, if_neg h2] at h
    have := pad4c_inj _ _ h
    omega

theorem pad2c_inj (a b : Nat) (ha : a < 100) (hb : b < 100) (h : pad2c a = pad2c b) :
    a = b := by
  have := congrArg charsVal h
  rwa [charsVal_pad2c a ha, charsVal_pad2c b hb] at this

theorem fmtDateChars_inj (d1 d2 : Date)
    (hm1 : d1.month < 100) (hd1 : d1.day < 100)
    (hm2 : d2.month < 100) (hd2 : d2.day < 100)
    (h : fmtDateChars d1 = fmtDateChars d2) : d1 = d2 := by
  unfold fmtDateChars at h
  have hlen : ('-' :: (pad2c d1.month ++ '-' :: pad2c d1.day)).length
      = ('-' :: (pad2c d2.month ++ '-' :: pad2c d2.day)).length := by
    simp [pad2c]
  obtain ⟨hy, htail⟩ := List.append_inj' h hlen
  have hy2 : d1.year = d2.year := fmtYear_inj _ _ hy
  have htail2 : pad2c d1.month ++ '-' :: pad2c d1.day
      = pad2c d2.month ++ '-' :: pad2c d2.day := List.cons_injective htail
  obtain ⟨hmo, hda⟩ := List.append_inj htail2 (by simp [pad2c])
  have hmo2 : d1.month = d2.month := pad2c_inj _ _ hm1 hm2 hmo
  have hda2 : d1.day = d2.day := pad2c_inj _ _ hd1 hd2 (List.cons_injective hda)
  cases d1; cases d2
  simp_all

theorem fmtDateChars_ne_nil (dt : Date) : fmtDateChars dt ≠ [] := by
  unfold fmtDateChars
  simp

theorem fmtDateStr_inj (d1 d2 : Date)
    (hm1 : d1.month < 100) (hd1 : d1.day < 100)
    (hm2 : d2.month < 100) (hd2 : d2.day < 100)
    (h : fmtDateStr d1 = fmtDateStr d2) : d1 = d2 := by
  unfold fmtDateStr at h
  exact fmtDateChars_inj d1 d2 hm1 hd1 hm2 hd2 (congrArg String.data h)

theorem fmtDateStr_ne_empty (dt : Date) : fmtDateStr dt ≠ "" := by
  unfold fmtDateStr
  intro h
  exact fmtDateChars_ne_nil dt (congrArg String.data h)

theorem dictMem_iff (k : String) (d : List (String × Nat)) :
    dictMem k d = true ↔ k ∈ d.map Prod.fst := by
  induction d with
  | nil => simp [dictMem]
  | cons p rest ih =>
    obtain ⟨k1, v1⟩ := p
    rw [dictMem]
    simp only [Bool.or_eq_true, beq_iff_eq, List.map_cons, List.mem_cons, ih]
    constructor
    · rintro (h | h)
      · exact Or.inl h.symm
      · exact Or.inr h
    · rintro (h | h)
      · exact Or.inl h.symm
      · exact Or.inr h

theorem dictSet_of_not_mem (d : List (String × Nat)) (k : String) (v : Nat)
    (h : k ∉ d.map Prod.fst) : dictSet d k v = d ++ [(k, v)] := by
  induction d with
  | nil => rfl
  | cons p rest ih =>
    obtain ⟨k1, v1⟩ := p
    have hk1 : k1 ≠ k := by
      intro he
      exact h (by simp [he])
    rw [dictSet, if_neg hk1, ih (by intro hm; exact h (by simp [hm]))]
    rfl

theorem foldl_dictSet_zero (keys : List String) :
    ∀ acc : List (String × Nat), keys.Nodup →
      (∀ k ∈ keys, k ∉ acc.map Prod.fst) →
      keys.foldl (fun d k => dictSet d k 0) acc = acc ++ keys.map (fun k => (k, 0)) := by
  induction keys with
  | nil => intro acc _ _; simp
  | cons k keys ih =>
    intro acc hnd hfresh
    rw [List.foldl_cons,
      dictSet_of_not_mem acc k 0 (hfresh k (List.mem_cons_self k keys)),
      ih (acc ++ [(k, 0)]) (List.Nodup.of_cons hnd) ?_]
    · simp
    · intro k2 hk2
      rw [List.map_append, List.mem_append]
      rintro (hin | hin)
      · exact hfresh k2 (List.mem_cons_of_mem k hk2) hin
      · have : k2 = k := by simpa using hin
        subst this
        exact (List.nodup_cons.mp hnd).1 hk2

theorem bumpF_fst (k : String) (p : String × Nat) : (bumpF k p).1 = p.1 := by
  unfold bumpF
  split <;> rfl

theorem map_bumpF_of_not_mem (d : List (String × Nat)) (k : String)
    (h : k ∉ d.map Prod.fst) : d.map (bumpF k) = d := by
  induction d with
  | nil => rfl
  | cons p rest ih =>
    obtain ⟨k1, v1⟩ := p
    have hk1 : k1 ≠ k := by
      intro he
      exact h (by simp [he])
    rw [List.map_cons, ih (by intro hm; exact h (by simp [hm]))]
    unfold bumpF
    rw [if_neg hk1]

theorem dictInc_eq_map (d : List (String × Nat)) (k : String)
    (hnd : (d.map Prod.fst).Nodup) : dictInc d k = d.map (bumpF k) := by
  induction d with
  | nil => rfl
  | cons p rest ih =>
    obtain ⟨k1, v1⟩ := p
    rw [List.map_cons] at hnd ⊢
    by_cases hk : k1 = k
    · subst hk
      rw [dictInc, if_pos rfl]
      have : bumpF k1 (k1, v1) = (k1, v1 + 1) := by unfold bumpF; rw [if_pos rfl]
      rw [this, map_bumpF_of_not_mem rest k1 (List.nodup_cons.mp hnd).1]
    · rw [dictInc, if_neg hk, ih (List.Nodup.of_cons hnd)]
      have : bumpF k (k1, v1) = (k1, v1) := by unfold bumpF; exact if_neg hk
      rw [this]

theorem step_eq_map (d : List (String × Nat)) (r : Record)
    (hnd : (d.map Prod.fst).Nodup) :
    (if dictMem (dateOf r) d then dictInc d (dateOf r) else d) = d.map (bumpF (dateOf r)) := by
  by_cases hm : dictMem (dateOf r) d = true
  · rw [if_pos hm]
    exact dictInc_eq_map d (dateOf r) hnd
  · rw [if_neg hm, map_bumpF_of_not_mem d (dateOf r) (fun hin => hm ((dictMem_iff _ _).mpr hin))]

theorem countMatch_nil (k : String) : countMatch k [] = 0 := rfl

theorem countMatch_cons (k : String) (r : Record) (rs : List Record) :
    countMatch k (r :: rs) = (if dateOf r = k then 1 else 0) + countMatch k rs := by
  unfold countMatch
  rw [List.filter_cons]
  by_cases h : dateOf r = k
  · rw [if_pos (by simpa using h), if_pos h, List.length_cons]
    omega
  · rw [if_neg (by simpa using h), if_neg h]
    omega

theorem foldl_step_eq (pee : List Record) :
    ∀ d : List (String × Nat), (d.map Prod.fst).Nodup →
      pee.foldl (fun d r => if dictMem (dateOf r) d then dictInc d (dateOf r) else d) d
        = d.map (fun p => (p.1, p.2 + countMatch p.1 pee)) := by
  induction pee with
  | nil =>
    intro d _
    rw [List.foldl_nil]
    conv_lhs => rw [← List.map_id d]
    apply List.map_congr_left
    intro p _
    rfl
  | cons r rs ih =>
    intro d hnd
    rw [List.foldl_cons]
    rw [step_eq_map d r hnd]
    have hkeys : ((d.map (bumpF (dateOf r))).map Prod.fst) = d.map Prod.fst := by
      rw [List.map_map]
      apply List.map_congr_left
      intro p _
      exact bumpF_fst (dateOf r) p
    rw [ih (d.map (bumpF (dateOf r))) (by rw [hkeys]; exact hnd), List.map_map]
    apply List.map_congr_left
    intro p _
    simp only [Function.comp_apply]
    rw [countMatch_cons]
    unfold bumpF
    by_cases hp : p.1 = dateOf r
    · rw [if_pos hp, if_pos hp.symm]
      dsimp only
      rw [Prod.mk.injEq]
      exact ⟨rfl, by omega⟩
    · rw [if_neg hp, if_neg (fun he => hp he.symm)]
      exact congrArg (fun n => (p.1, n))
        (by omega : p.2 + countMatch p.1 rs = p.2 + (0 + countMatch p.1 rs))

theorem nodup_weekKeys (today : Date) (h : ValidDate today) : (weekKeys today).Nodup := by
  unfold weekKeys
  apply List.Nodup.map_on ?_ (List.nodup_range 7)
  intro i hi j hj hf
  rw [List.mem_range] at hi hj
  have hvi := subDays_valid today h (6 - i)
  have hvj := subDays_valid today h (6 - j)
  have hmi : (subDays today (6 - i)).month < 100 := by
    have := hvi.2.1
    omega
  have hdi : (subDays today (6 - i)).day < 100 := by
    have h31 := daysInMonth_le_31 (subDays today (6 - i)).year (subDays today (6 - i)).month
    have := hvi.2.2.2
    omega
  have hmj : (subDays today (6 - j)).month < 100 := by
    have := hvj.2.1
    omega
  have hdj : (subDays today (6 - j)).day < 100 := by
    have h31 := daysInMonth_le_31 (subDays today (6 - j)).year (subDays today (6 - j)).month
    have := hvj.2.2.2
    omega
  have heq := fmtDateStr_inj _ _ hmi hdi hmj hdj hf
  have := subDays_inj today h (6 - i) (6 - j) heq
  omega

/-- Closed form of `get_weekly_pee_data`: the 7 window keys in insertion
order, each paired with the number of records whose date matches it. -/
theorem weekly_closed (today : Date) (pee : List Record) (h : ValidDate today) :
    get_weekly_pee_data today pee
      = (weekKeys today).map (fun k => (k, countMatch k pee)) := by
  unfold get_weekly_pee_data
  have hinit : (weekKeys today).foldl (fun d k => dictSet d k 0) []
      = (weekKeys today).map (fun k => (k, 0)) := by
    have := foldl_dictSet_zero (weekKeys today) [] (nodup_weekKeys today h) (by simp)
    exact this
  rw [hinit]
  have hkeys : (((weekKeys today).map (fun k => (k, 0))).map Prod.fst) = weekKeys today := by
    rw [List.map_map]
    conv_rhs => rw [← List.map_id (weekKeys today)]
    apply List.map_congr_left
    intro k _
    rfl
  rw [foldl_step_eq pee _ (by rw [hkeys]; exact nodup_weekKeys today h), List.map_map]
  apply List.map_congr_left
  intro k _
  exact congrArg (fun n => (k, n)) (by omega : 0 + countMatch k pee = countMatch k pee)

theorem empty_not_mem_weekKeys (today : Date) : "" ∉ weekKeys today := by
  unfold weekKeys
  intro hm
  rw [List.mem_map] at hm
  obtain ⟨j, _, hj⟩ := hm
  exact fmtDateStr_ne_empty _ hj

theorem sum_map_zero (K : List String) : (K.map (fun _ => (0 : Nat))).sum = 0 := by
  induction K with
  | nil => rfl
  | cons k K ih => rw [List.map_cons, List.sum_cons, ih]

theorem sum_map_add (K : List String) (f g : String → Nat) :
    (K.map (fun k => f k + g k)).sum = (K.map f).sum + (K.map g).sum := by
  induction K with
  | nil => rfl
  | cons k K ih =>
    rw [List.map_cons, List.map_cons, List.map_cons, List.sum_cons, List.sum_cons,
      List.sum_cons, ih]
    omega

theorem sum_if_not_mem (K : List String) (a : String) (ha : a ∉ K) :
    (K.map (fun k => if a = k then 1 else 0)).sum = 0 := by
  induction K with
  | nil => rfl
  | cons k K ih =>
    rw [List.map_cons, List.sum_cons,
      if_neg (fun he => ha (by rw [he]; exact List.mem_cons_self k K)),
      ih (fun hm => ha (List.mem_cons_of_mem k hm))]

theorem sum_if_mem (K : List String) (a : String) (hnd : K.Nodup) :
    (K.map (fun k => if a = k then 1 else 0)).sum = if a ∈ K then 1 else 0 := by
  induction K with
  | nil => simp
  | cons k K ih =>
    rw [List.map_cons, List.sum_cons]
    by_cases he : a = k
    · subst he
      rw [if_pos rfl, sum_if_not_mem K a (List.nodup_cons.mp hnd).1,
        if_pos (List.mem_cons_self a K)]
    · rw [if_neg he, ih (List.Nodup.of_cons hnd)]
      by_cases hm : a ∈ K
      · rw [if_pos hm, if_pos (List.mem_cons_of_mem k hm)]
      · rw [if_neg hm, if_neg (by
          intro hin
          rcases List.mem_cons.mp hin with h1 | h1
          · exact he h1
          · exact hm h1)]

theorem length_filter_cons {α : Type} (p : α → Bool) (r : α) (rs : List α) :
    ((r :: rs).filter p).length
      = (if p r = true then 1 else 0) + (rs.filter p).length := by
  rw [List.filter_cons]
  split
  · simp only [List.length_cons]
    omega
  · omega

theorem sum_countMatch (K : List String) (hnd : K.Nodup) (hne : "" ∉ K) :
    ∀ pee : List Record,
      (K.map (fun k => countMatch k pee)).sum = (pee.filter (inWindow K)).length := by
  intro pee
  induction pee with
  | nil =>
    have h0 : (K.map (fun k => countMatch k [])).sum = (K.map (fun _ => (0 : Nat))).sum := by
      apply congrArg
      apply List.map_congr_left
      intro k _
      rfl
    rw [h0, sum_map_zero]
    rfl
  | cons r rs ih =>
    have hstep : (K.map (fun k => countMatch k (r :: rs))).sum
        = (K.map (fun k => (if dateOf r = k then 1 else 0) + countMatch k rs)).sum := by
      apply congrArg
      apply List.map_congr_left
      intro k _
      rw [countMatch_cons]
    rw [hstep, sum_map_add, sum_if_mem K (dateOf r) hnd, ih, length_filter_cons]
    have hsame : (if dateOf r ∈ K then 1 else 0) = (if inWindow K r = true then 1 else 0) := by
      unfold inWindow dateOf
      cases hr : r.date with
      | none =>
        rw [if_neg (by simpa [Option.getD] using hne)]
        rfl
      | some d =>
        by_cases hm : d ∈ K
        · rw [if_pos (by simpa [Option.getD] using hm), if_pos (by simpa using hm)]
        · rw [if_neg (by simpa [Option.getD] using hm), if_neg (by simpa using hm)]
    omega

theorem countMatch_fmt_today (today : Date) (pee : List Record) :
    countMatch (fmtDateStr today) pee = get_today_pee_count today pee := by
  unfold countMatch get_today_pee_count
  apply congrArg
  apply List.filter_congr
  intro r _
  unfold dateOf
  cases hr : r.date with
  | none =>
    show (("" : String) == fmtDateStr today) = false
    rw [beq_eq_false_iff_ne]
    exact fun he => fmtDateStr_ne_empty today he.symm
  | some d =>
    rfl

theorem isDigit_ne_colon (c : Char) (h : c.isDigit = true) : c ≠ ':' := by
  intro he
  rw [he] at h
  exact absurd h (by decide)

theorem output_data (h m : Nat) :
    (natStr h ++ "時" ++ pad2str m ++ "分").data
      = natChars h ++ ['時'] ++ pad2c m ++ ['分'] := by
  rw [String.data_append, String.data_append, String.data_append]
  rfl

theorem no_colon_output (h m : Nat) :
    ∀ c ∈ natChars h ++ ['時'] ++ pad2c m ++ ['分'], c ≠ ':' := by
  intro c hc
  simp only [List.mem_append, List.mem_singleton] at hc
  rcases hc with ((hc | hc) | hc) | hc
  · exact isDigit_ne_colon c (mem_natChars_isDigit h c hc)
  · subst hc; decide
  · exact isDigit_ne_colon c (mem_pad2c_isDigit m c hc)
  · subst hc; decide

theorem parseHMS_output (h m : Nat) :
    parseHMS (natStr h ++ "時" ++ pad2str m ++ "分") = none := by
  unfold parseHMS
  rw [output_data]
  unfold parseHMSChars
  rw [splitSep_of_no_sep ':' _ (no_colon_output h m)]

/-- Claim C1: for every input record list and every current date,
`get_weekly_pee_data` returns exactly 7 buckets whose keys, in
oldest-to-newest insertion order, are the formatted dates today−6 … today
(consecutive, strictly increasing calendar days ending on today), and each
bucket's count is the number of matching records — hence 0 for a day with
no matching record — regardless of the content or emptiness of the input. -/
theorem weekly_window_shape (today : Date) (pee : List Record) (h : ValidDate today) :
    (get_weekly_pee_data today pee).length = 7 ∧
    (get_weekly_pee_data today pee).map Prod.fst
      = (List.range 7).map (fun j => fmtDateStr (subDays today (6 - j))) ∧
    subDays today 0 = today ∧
    (∀ j, j < 6 → subDays today (6 - j) = predDate (subDays today (6 - (j + 1)))) ∧
    (∀ j, j < 6 → dateLt (subDays today (6 - j)) (subDays today (6 - (j + 1)))) ∧
    (∀ p ∈ get_weekly_pee_data today pee, p.2 = countMatch p.1 pee) := by
  refine ⟨?_, ?_, rfl, ?_, ?_, ?_⟩
  · rw [weekly_closed today pee h, List.length_map]
    unfold weekKeys
    rw [List.length_map, List.length_range]
  · rw [weekly_closed today pee h, List.map_map]
    unfold weekKeys
    rw [List.map_map]
    apply List.map_congr_left
    intro j _
    rfl
  · intro j hj
    have e : 6 - j = (6 - (j + 1)) + 1 := by omega
    rw [e]
    rfl
  · intro j hj
    have e : 6 - j = (6 - (j + 1)) + 1 := by omega
    rw [e]
    exact predDate_lt _ (subDays_valid today h _)
  · rw [weekly_closed today pee h]
    intro p hp
    rw [List.mem_map] at hp
    obtain ⟨k, _, rfl⟩ := hp
    rfl

theorem weekly_window_shape_witness :
    (get_weekly_pee_data exampleToday exampleRecords).length = 7 ∧
    (get_weekly_pee_data exampleToday exampleRecords).map Prod.fst
      = (List.range 7).map (fun j => fmtDateStr (subDays exampleToday (6 - j))) ∧
    subDays exampleToday 0 = exampleToday ∧
    (∀ j, j < 6 →
      subDays exampleToday (6 - j) = predDate (subDays exampleToday (6 - (j + 1)))) ∧
    (∀ j, j < 6 →
      dateLt (subDays exampleToday (6 - j)) (subDays exampleToday (6 - (j + 1)))) ∧
    (∀ p ∈ get_weekly_pee_data exampleToday exampleRecords,
      p.2 = countMatch p.1 exampleRecords) :=
  weekly_window_shape exampleToday exampleRecords (by decide)

/-- Claim C2: the sum of the 7 bucket counts equals the number of input
records whose date string-matches one of the 7 window keys; records whose
date is outside the window or whose `date` field is missing contribute
nothing (and the model is total — there is no error path). -/
theorem weekly_sum_window (today : Date) (pee : List Record) (h : ValidDate today) :
    weeklyTotal today pee = (pee.filter (inWindow (weekKeys today))).length := by
  unfold weeklyTotal
  rw [weekly_closed today pee h, List.map_map]
  have hc : (weekKeys today).map (Prod.snd ∘ fun k => (k, countMatch k pee))
      = (weekKeys today).map (fun k => countMatch k pee) := by
    apply List.map_congr_left
    intro k _
    rfl
  rw [hc]
  exact sum_countMatch (weekKeys today) (nodup_weekKeys today h)
    (empty_not_mem_weekKeys today) pee

theorem weekly_sum_window_witness :
    weeklyTotal exampleToday exampleRecords
      = (exampleRecords.filter (inWindow (weekKeys exampleToday))).length :=
  weekly_sum_window exampleToday exampleRecords (by decide)

/-- Claim C3: `get_today_pee_count` returns exactly the number of records
whose `date` field equals today's `YYYY-MM-DD` string (a pure same-day
filter, equal to the string-match count at today's key; no window). -/
theorem today_count_filter (today : Date) (pee : List Record) :
    get_today_pee_count today pee
      = (pee.filter (fun r => decide (r.date = some (fmtDateStr today)))).length ∧
    get_today_pee_count today pee = countMatch (fmtDateStr today) pee := by
  constructor
  · unfold get_today_pee_count
    apply congrArg
    apply List.filter_congr
    intro r _
    by_cases he : r.date = some (fmtDateStr today)
    · simp [he]
    · simp [he]
  · exact (countMatch_fmt_today today pee).symm

/-- Claim C4: the displayed weekly average is the bucket total divided by
the constant 7 (Python's float division modelled as exact division in
`ℚ`); it is not the total divided by the number of non-zero days, the two
formulas differing already on the §8 example. -/
theorem weekly_average_formula :
    (∀ (today : Date) (pee : List Record),
        weeklyAvg today pee = (weeklyTotal today pee : ℚ) / 7) ∧
    weeklyAvg exampleToday exampleRecords = 3 / 7 ∧
    weeklyAvg exampleToday exampleRecords
      ≠ (weeklyTotal exampleToday exampleRecords : ℚ)
          / (nonzeroDays exampleToday exampleRecords : ℚ) := by
  refine ⟨fun _ _ => rfl, ?_, ?_⟩
  · have h3 : weeklyTotal exampleToday exampleRecords = 3 := by decide
    unfold weeklyAvg
    rw [h3]
    norm_num
  · have h3 : weeklyTotal exampleToday exampleRecords = 3 := by decide
    have h2 : nonzeroDays exampleToday exampleRecords = 2 := by decide
    unfold weeklyAvg
    rw [h3, h2]
    norm_num

/-- Claim C5: on every input that parses as a valid HH:MM:SS time,
`format_time_simple` returns `"<hour>時<minute>分"` with the hour unpadded
and the minute zero-padded to two digits; in particular "16:10:00" maps to
"16時10分" and "09:05:00" maps to "9時05分". -/
theorem format_time_valid_label (s : String) (h m sec : Nat)
    (hp : parseHMS s = some (h, m, sec)) :
    format_time_simple s = natStr h ++ "時" ++ pad2str m ++ "分" ∧
    format_time_simple "16:10:00" = "16時10分" ∧
    format_time_simple "09:05:00" = "9時05分" := by
  refine ⟨?_, by decide, by decide⟩
  unfold format_time_simple
  rw [hp]

theorem format_time_valid_label_witness :
    format_time_simple "16:10:00" = natStr 16 ++ "時" ++ pad2str 10 ++ "分" ∧
    format_time_simple "16:10:00" = "16時10分" ∧
    format_time_simple "09:05:00" = "9時05分" :=
  format_time_valid_label "16:10:00" 16 10 0 (by decide)

/-- Claim C6: on every input that fails to parse as a valid HH:MM:SS time,
`format_time_simple` returns that exact string unchanged (the exception
never surfaces), so formatting is idempotent on already-invalid input. -/
theorem format_time_invalid_fallback (s : String) (hp : parseHMS s = none) :
    format_time_simple s = s ∧
    format_time_simple (format_time_simple s) = format_time_simple s ∧
    format_time_simple "not-a-time" = "not-a-time" := by
  have h1 : format_time_simple s = s := by
    unfold format_time_simple
    rw [hp]
  refine ⟨h1, ?_, by decide⟩
  rw [h1]
  exact h1

theorem format_time_invalid_fallback_witness :
    format_time_simple "not-a-time" = "not-a-time" ∧
    format_time_simple (format_time_simple "not-a-time")
      = format_time_simple "not-a-time" ∧
    format_time_simple "not-a-time" = "not-a-time" :=
  format_time_invalid_fallback "not-a-time" (by decide)

/-- Claim C7: with the clock fixed at 2024-06-10 and record dates
["2024-06-10", "2024-06-10", "2024-06-08", "2024-06-01"], the weekly
buckets are 06-04:0 … 06-08:1, 06-09:0, 06-10:2 (oldest to newest), the
total is 3, the average 3/7, the today-count 2, and "2024-06-01" is not a
window key. -/
theorem weekly_example_2024_06_10 :
    get_weekly_pee_data exampleToday exampleRecords
      = [("2024-06-04", 0), ("2024-06-05", 0), ("2024-06-06", 0), ("2024-06-07", 0),
         ("2024-06-08", 1), ("2024-06-09", 0), ("2024-06-10", 2)] ∧
    weeklyTotal exampleToday exampleRecords = 3 ∧
    weeklyAvg exampleToday exampleRecords = 3 / 7 ∧
    get_today_pee_count exampleToday exampleRecords = 2 ∧
    (weekKeys exampleToday).contains "2024-06-01" = false := by
  refine ⟨by decide, by decide, ?_, by decide, by decide⟩
  have h3 : weeklyTotal exampleToday exampleRecords = 3 := by decide
  unfold weeklyAvg
  rw [h3]
  norm_num

/-- Claim C9: `format_time_simple` is idempotent on every input: any
successful output consists of digits and 時/分 only, contains no colon,
hence fails to parse and is returned unchanged by a second application. -/
theorem format_time_idempotent (s : String) :
    format_time_simple (format_time_simple s) = format_time_simple s := by
  cases hp : parseHMS s with
  | none =>
    have h1 : format_time_simple s = s := by
      unfold format_time_simple
      rw [hp]
    rw [h1]
    exact h1
  | some t =>
    obtain ⟨h, m, sec⟩ := t
    have h1 : format_time_simple s = natStr h ++ "時" ++ pad2str m ++ "分" := by
      unfold format_time_simple
      rw [hp]
    rw [h1]
    unfold format_time_simple
    rw [parseHMS_output h m]

/-- Claim C10: for a single fixed current date, the today-count equals the
count stored in the newest (today's) bucket of the weekly series. -/
theorem today_count_matches_last_bucket (today : Date) (pee : List Record)
    (h : ValidDate today) :
    (get_weekly_pee_data today pee).getLast?
      = some (fmtDateStr today, get_today_pee_count today pee) := by
  rw [weekly_closed today pee h]
  have hw : weekKeys today
      = [fmtDateStr (subDays today 6), fmtDateStr (subDays today 5),
         fmtDateStr (subDays today 4), fmtDateStr (subDays today 3),
         fmtDateStr (subDays today 2), fmtDateStr (subDays today 1),
         fmtDateStr today] := by
    unfold weekKeys
    have hr : List.range 7 = [0, 1, 2, 3, 4, 5, 6] := by decide
    rw [hr]
    rfl
  rw [hw]
  simp only [List.map_cons, List.map_nil]
  show some (fmtDateStr today, countMatch (fmtDateStr today) pee)
      = some (fmtDateStr today, get_today_pee_count today pee)
  rw [countMatch_fmt_today]

theorem today_count_matches_last_bucket_witness :
    (get_weekly_pee_data exampleToday exampleRecords).getLast?
      = some (fmtDateStr exampleToday, get_today_pee_count exampleToday exampleRecords) :=
  today_count_matches_last_bucket exampleToday exampleRecords (by decide)
